import Mathlib

/-!
Verification of the gdoc-comments-md core: a shallow embedding of the
document-to-markdown transformer (src/lib/services/transformer.ts), the
pagination utilities (src/lib/utils/pagination.ts) and the Drive-comment
conversion, together with theorems about the specified properties.

Strings are modelled by Lean `String` (a list of characters); character
counts are `Nat`.  JavaScript optional fields are modelled by `Option`,
and truthiness tests on strings are explicit comparisons with the empty
string.
-/

/-! ## Data model (src/lib/types/google.ts) -/

structure DocLink where
  url : Option String
deriving DecidableEq

structure TextStyle where
  bold : Bool
  italic : Bool
  link : Option DocLink
deriving DecidableEq

structure TextRun where
  content : String
  textStyle : Option TextStyle
deriving DecidableEq

/-- One entry of `Paragraph.elements`.  The `pageBreak` flag models the
presence of the `pageBreak` key on the JSON object. -/
structure ParagraphElement where
  textRun : Option TextRun
  pageBreak : Bool
deriving DecidableEq

structure Bullet where
  listId : String
  nestingLevel : Option Nat
deriving DecidableEq

structure ParagraphStyle where
  namedStyleType : Option String
deriving DecidableEq

structure Paragraph where
  elements : List ParagraphElement
  paragraphStyle : Option ParagraphStyle
  bullet : Option Bullet
deriving DecidableEq

structure StructuralElement where
  paragraph : Option Paragraph
deriving DecidableEq

structure NestingLevel where
  glyphFormat : Option String
deriving DecidableEq

structure ListProperties where
  nestingLevels : List NestingLevel
deriving DecidableEq

structure DocList where
  listProperties : ListProperties
deriving DecidableEq

/-- A parsed document: `title`, `body.content` (flattened to `content`)
and the `lists` map (an association list keyed by list id). -/
structure GoogleDocsDocument where
  title : String
  content : List StructuralElement
  lists : List (String × DocList)
deriving DecidableEq

structure ThreadComment where
  authorName : String
  authorEmail : String
  content : String
  isReply : Bool
deriving DecidableEq

structure CommentThread where
  id : String
  anchorId : String
  quotedText : String
  resolved : Bool
  comments : List ThreadComment
deriving DecidableEq

/-! ## String helpers

`charsStartWith pat s` decides whether `pat` is an initial segment of `s`;
`charsContain s pat` decides substring containment (JS `String.includes`);
`replaceFirst` replaces the first occurrence of a literal pattern, which is
what the escaped-regex replacement with a replace-once callback in
`insertAnchors` amounts to. -/

def charsStartWith : List Char → List Char → Bool
  | [], _ => true
  | _ :: _, [] => false
  | p :: ps, c :: cs => p == c && charsStartWith ps cs

def charsContain : List Char → List Char → Bool
  | [], pat => pat.isEmpty
  | c :: cs, pat => charsStartWith pat (c :: cs) || charsContain cs pat

/-- JS `s.includes(pat)`. -/
def strContains (s pat : String) : Bool :=
  charsContain s.data pat.data

def replaceFirstAux (pat rep : List Char) : List Char → List Char
  | [] => if pat.isEmpty then rep else []
  | c :: cs =>
    if charsStartWith pat (c :: cs) then rep ++ (c :: cs).drop pat.length
    else c :: replaceFirstAux pat rep cs

/-- Replace the first occurrence of the literal `pat` in `s` by `rep`;
if `pat` does not occur, `s` is returned unchanged. -/
def replaceFirst (s pat rep : String) : String :=
  String.mk (replaceFirstAux pat.data rep.data s.data)

/-- Strip a single trailing newline: JS `s.replace` with pattern
"newline at end of string". -/
def stripTrailingNewline (s : String) : String :=
  match s.data.getLast? with
  | some c => if c = '\n' then String.mk s.data.dropLast else s
  | none => s

/-- State machine for collapsing runs of 3 or more consecutive newline
characters to exactly two (JS `s.replace` with the global pattern
"3+ newlines" and replacement of two newlines): every maximal run of `k`
newlines is emitted as `min k 2` newlines. -/
def collapseGo : Nat → List Char → List Char
  | k, [] => List.replicate (min k 2) '\n'
  | k, c :: cs =>
    if c = '\n' then collapseGo (k + 1) cs
    else List.replicate (min k 2) '\n' ++ c :: collapseGo 0 cs

def collapseNewlineRuns (s : String) : String :=
  String.mk (collapseGo 0 s.data)

/-- JS `s.trimEnd()`: remove trailing whitespace. -/
def strTrimRight (s : String) : String :=
  String.mk ((s.data.reverse.dropWhile Char.isWhitespace).reverse)

/-- JS `s.trim()`: remove leading and trailing whitespace. -/
def strTrim (s : String) : String :=
  String.mk ((((s.data.dropWhile Char.isWhitespace).reverse).dropWhile
    Char.isWhitespace).reverse)

/-- JS `s.split(newline)`: split at every newline character, keeping empty
pieces. -/
def splitNlAux : List Char → List Char → List String
  | acc, [] => [String.mk acc.reverse]
  | acc, c :: cs =>
    if c = '\n' then String.mk acc.reverse :: splitNlAux [] cs
    else splitNlAux (c :: acc) cs

def splitNl (s : String) : List String :=
  splitNlAux [] s.data

/-- JS `parts.join(sep)`. -/
def joinSep (sep : String) : List String → String
  | [] => ""
  | s :: rest => rest.foldl (fun acc t => acc ++ sep ++ t) s

/-! ## Transformer (src/lib/services/transformer.ts) -/

/-- `applyTextStyle` of the source: a truthy `style.link?.url` renders a
markdown link (bold/italic ignored); otherwise italic is applied first and
bold second. -/
def applyTextStyle (text : String) (style : TextStyle) : String :=
  let linkUrl := (style.link.bind (fun l => l.url)).getD ""
  if linkUrl ≠ "" then
    "[" ++ text ++ "](" ++ linkUrl ++ ")"
  else
    let t1 := if style.italic then "_" ++ text ++ "_" else text
    if style.bold then "**" ++ t1 ++ "**" else t1

/-- `extractTextContent` of the source: map each paragraph element to its
(styled) text and join with the empty separator. -/
def extractTextContent (elements : List ParagraphElement) : String :=
  String.join (elements.map (fun element =>
    match element.textRun with
    | none => ""
    | some tr =>
      match tr.textStyle with
      | none => tr.content
      | some style => applyTextStyle tr.content style))

/-- `HEADING_MAP` of the source. -/
def headingMap (s : String) : Option String :=
  if s = "TITLE" then some "# "
  else if s = "SUBTITLE" then some ""
  else if s = "HEADING_1" then some "## "
  else if s = "HEADING_2" then some "### "
  else if s = "HEADING_3" then some "#### "
  else if s = "HEADING_4" then some "##### "
  else if s = "HEADING_5" then some "###### "
  else none

/-- `getListPrefix` of the source (renamed): indentation of two spaces per
nesting level, then an ordered marker when the glyph format contains a
placeholder combined with a period or a leading bracket, else a dash. -/
def getListMarker (paragraph : Paragraph) (doc : GoogleDocsDocument) : String :=
  match paragraph.bullet with
  | none => ""
  | some bullet =>
    let nestingLevel := bullet.nestingLevel.getD 0
    let padding := String.join (List.replicate nestingLevel "  ")
    let listDetails := doc.lists.lookup bullet.listId
    let levels := match listDetails with
      | some d => d.listProperties.nestingLevels
      | none => []
    let glyphFormat := match levels.get? nestingLevel with
      | some lvl => lvl.glyphFormat.getD ""
      | none => ""
    if strContains glyphFormat "%" &&
        (strContains glyphFormat "." || charsStartWith "[".data glyphFormat.data) then
      padding ++ "1. "
    else
      padding ++ "- "

/-- `formatCommentThread` of the source: one blockquote per thread comment,
successive comments separated by a bare quote line. -/
def formatCommentThread (thread : CommentThread) : String :=
  let anchorLabel := if thread.resolved then thread.anchorId ++ " resolved" else thread.anchorId
  joinSep "\n>\n" (thread.comments.map (fun comment =>
    let header := "> [" ++ anchorLabel ++ "] **" ++ comment.authorName ++
      "** (" ++ comment.authorEmail ++ "):"
    let content := joinSep "\n"
      ((splitNl comment.content).map (fun line => "> " ++ line))
    header ++ "\n" ++ content))

/-- Stable insertion for the descending-by-quoted-text-length order: an
element is placed before the first strictly shorter quote, after quotes of
equal length that were already in the (later-position) sorted tail is
wrong for stability, so ties also go in front. -/
def insertByQuoteLen (t : CommentThread) : List CommentThread → List CommentThread
  | [] => [t]
  | u :: us =>
    if u.quotedText.length ≤ t.quotedText.length then t :: u :: us
    else u :: insertByQuoteLen t us

/-- The stable JS array sort under the comparator
`(a, b) => b.quotedText.length - a.quotedText.length` (longest first). -/
def sortByQuoteLenDesc : List CommentThread → List CommentThread
  | [] => []
  | t :: ts => insertByQuoteLen t (sortByQuoteLenDesc ts)

/-- `insertAnchors` of the source: sort threads by quoted-text length
descending, then for each thread with non-empty quoted text replace the
first occurrence of the quote in the accumulated line by the anchored
form. -/
def insertAnchors (text : String) (threads : List CommentThread) : String :=
  (sortByQuoteLenDesc threads).foldl (fun result thread =>
    if thread.quotedText = "" then result
    else replaceFirst result thread.quotedText
      ("[" ++ thread.quotedText ++ "]^[" ++ thread.anchorId ++ "]")) text

/-- `doc.body.content.some(el => el.paragraph?.paragraphStyle?.namedStyleType === 'TITLE')`. -/
def hasTitleParagraph (doc : GoogleDocsDocument) : Bool :=
  doc.content.any (fun el =>
    match el.paragraph with
    | some p => (p.paragraphStyle.bind (fun ps => ps.namedStyleType)) == some "TITLE"
    | none => false)

/-- The body of the per-element loop of `transformToMarkdown`: state is the
accumulated line list together with the previous-block-was-a-list flag. -/
def transformStep (doc : GoogleDocsDocument) (threads : List CommentThread)
    (st : List String × Bool) (element : StructuralElement) : List String × Bool :=
  let lines := st.1
  let prevWasList := st.2
  match element.paragraph with
  | none => (lines, prevWasList)
  | some paragraph =>
    let styleType := paragraph.paragraphStyle.bind (fun ps => ps.namedStyleType)
    let isList := paragraph.bullet.isSome
    let rawText := extractTextContent paragraph.elements
    if strTrim rawText = "" then
      (if prevWasList then lines else lines ++ [""], false)
    else
      let textContent := stripTrailingNewline rawText
      let pre : List String × String :=
        if isList then
          let marker := getListMarker paragraph doc
          let line := marker ++ textContent
          let lines1 :=
            if ¬ prevWasList ∧ lines.length > 0 then
              if lines.getLastD "" ≠ "" then lines ++ [""] else lines
            else lines
          (lines1, line)
        else if styleType = some "SUBTITLE" then
          (lines, "_" ++ strTrim textContent ++ "_")
        else
          let hm := (styleType.bind headingMap).getD ""
          if hm ≠ "" then (lines, hm ++ textContent) else (lines, textContent)
      let lines1 := pre.1
      let line0 := pre.2
      let matching := threads.filter (fun t =>
        t.quotedText != "" && strContains textContent t.quotedText)
      let line := if matching.length > 0 then insertAnchors line0 matching else line0
      let lines2 := if ¬ isList ∧ prevWasList then lines1 ++ [""] else lines1
      let lines3 := lines2 ++ [strTrimRight line]
      let lines4 :=
        if ¬ isList then
          (if matching.length > 0 then
            lines3 ++ [""] ++ matching.map formatCommentThread
          else lines3) ++ [""]
        else
          if matching.length > 0 then lines3 ++ [""] ++ matching.map formatCommentThread
          else lines3
      (lines4, isList)

/-- `transformToMarkdown` of the source. -/
def transformToMarkdown (doc : GoogleDocsDocument) (threads : List CommentThread) : String :=
  let initLines : List String :=
    if hasTitleParagraph doc then [] else ["# " ++ doc.title, ""]
  let st := doc.content.foldl (transformStep doc threads) (initLines, false)
  let joined := joinSep "\n" st.1
  strTrimRight (collapseNewlineRuns joined) ++ "\n"

/-! ## Pagination (src/lib/utils/pagination.ts) -/

structure PageBoundary where
  pageNumber : Nat
  startElementIndex : Nat
  endElementIndex : Nat
  charCount : Nat
deriving DecidableEq

def DEFAULT_CHARS_PER_PAGE : Nat := 3000

/-- `hasPageBreak` of the source: some paragraph element carries the
`pageBreak` key. -/
def hasPageBreak (element : StructuralElement) : Bool :=
  match element.paragraph with
  | none => false
  | some p => p.elements.any (fun el => el.pageBreak)

/-- `getElementCharCount` of the source: sum of the text-run content
lengths of the paragraph. -/
def getElementCharCount (element : StructuralElement) : Nat :=
  match element.paragraph with
  | none => 0
  | some p => p.elements.foldl (fun sum el =>
      match el.textRun with
      | some tr => sum + tr.content.length
      | none => sum) 0

/-- The loop of `estimatePages`, with the mutable state made explicit:
remaining elements, current index `i`, accumulated pages, current page
start index, current character count, and next page number.  In the
budget branch the pushed `charCount` is the running total minus the
current element (the source writes `currentCharCount - charCount` after
updating the total, which is the incoming `count`). -/
def estimateLoop (charsPerPage : Nat) :
    List StructuralElement → Nat → List PageBoundary → Nat → Nat → Nat →
    List PageBoundary × Nat × Nat × Nat
  | [], _, pages, start, count, pn => (pages, start, count, pn)
  | e :: rest, i, pages, start, count, pn =>
    if hasPageBreak e then
      if start < i ∨ 0 < count then
        estimateLoop charsPerPage rest (i + 1)
          (pages ++ [⟨pn, start, i, count⟩]) (i + 1) 0 (pn + 1)
      else
        estimateLoop charsPerPage rest (i + 1) pages (i + 1) 0 pn
    else
      let c := getElementCharCount e
      if count + c > charsPerPage ∧ start < i then
        estimateLoop charsPerPage rest (i + 1)
          (pages ++ [⟨pn, start, i, count⟩]) i c (pn + 1)
      else
        estimateLoop charsPerPage rest (i + 1) pages start (count + c) pn

/-- `estimatePages` of the source. -/
def estimatePages (elements : List StructuralElement)
    (charsPerPage : Nat := DEFAULT_CHARS_PER_PAGE) : List PageBoundary :=
  if elements.length = 0 then [⟨1, 0, 0, 0⟩]
  else
    let r := estimateLoop charsPerPage elements 0 [] 0 0 1
    let pages := r.1
    let start := r.2.1
    let count := r.2.2.1
    let pn := r.2.2.2
    if start ≤ elements.length - 1 ∨ pages.length = 0 then
      pages ++ [⟨pn, start, elements.length, count⟩]
    else
      pages

structure FilterResult where
  elements : List StructuralElement
  totalPages : Nat
  startPage : Int
  endPage : Int
deriving DecidableEq

/-- The element-gathering loop of `filterByPageRange`: the blocks with
indices in `[s, e)` in order (all selected ranges lie within bounds). -/
def sliceElems (elements : List StructuralElement) (s e : Nat) : List StructuralElement :=
  (elements.take e).drop s

/-- `filterByPageRange` of the source.  `startPage` and `pageCount` are
JS numbers used as integers, so they are modelled by `Int`. -/
def filterByPageRange (elements : List StructuralElement) (startPage : Int)
    (pageCount : Option Int) (charsPerPage : Nat := DEFAULT_CHARS_PER_PAGE) :
    FilterResult :=
  let pages := estimatePages elements charsPerPage
  let totalPages := pages.length
  let clampedStart : Int := min (max 1 startPage) (totalPages : Int)
  let endPage : Int :=
    match pageCount with
    | none => (totalPages : Int)
    | some c => min (clampedStart + c - 1) (totalPages : Int)
  let selected := pages.filter (fun p =>
    decide (clampedStart ≤ (p.pageNumber : Int)) && decide ((p.pageNumber : Int) ≤ endPage))
  let filteredElements := selected.foldl (fun acc p =>
    acc ++ sliceElems elements p.startElementIndex p.endElementIndex) []
  ⟨filteredElements, totalPages, clampedStart, endPage⟩

/-- `extractAllText` of the source: the raw (unstyled) text-run content of
every block, concatenated. -/
def extractAllText (elements : List StructuralElement) : String :=
  String.join (elements.map (fun el =>
    match el.paragraph with
    | none => ""
    | some p => String.join (p.elements.map (fun pe =>
        match pe.textRun with
        | some tr => tr.content
        | none => ""))))

/-- The indexed map of `filterAndRenumberThreads`: the thread at position
`i` (0-based) receives anchor id `c(i+1)`. -/
def renumberGo : Nat → List CommentThread → List CommentThread
  | _, [] => []
  | i, t :: ts =>
    ⟨t.id, "c" ++ toString (i + 1), t.quotedText, t.resolved, t.comments⟩ ::
      renumberGo (i + 1) ts

/-- `filterAndRenumberThreads` of the source: keep the threads whose
non-empty quoted text occurs in the concatenated raw text of the given
blocks, in order, and reassign contiguous anchor ids. -/
def filterAndRenumberThreads (threads : List CommentThread)
    (elements : List StructuralElement) : List CommentThread :=
  let fullText := extractAllText elements
  let matching := threads.filter (fun t =>
    t.quotedText != "" && strContains fullText t.quotedText)
  renumberGo 0 matching

/-! ## Drive comment conversion (src/lib/services/transformer.ts) -/

structure CommentAuthor where
  displayName : String
  emailAddress : Option String
deriving DecidableEq

structure QuotedFileContent where
  value : String
deriving DecidableEq

structure DriveReply where
  content : String
  author : CommentAuthor
deriving DecidableEq

structure DriveComment where
  id : String
  content : String
  resolved : Bool
  quotedFileContent : Option QuotedFileContent
  author : CommentAuthor
  replies : List DriveReply
deriving DecidableEq

/-- The filter predicate of `convertDriveComments`:
`!comment.resolved || comment.quotedFileContent`. -/
def keepDriveComment (comment : DriveComment) : Bool :=
  !comment.resolved || comment.quotedFileContent.isSome

/-- The indexed map of `convertDriveComments`. -/
def convertGo : Nat → List DriveComment → List CommentThread
  | _, [] => []
  | index, comment :: rest =>
    ⟨comment.id,
     "c" ++ toString (index + 1),
     (comment.quotedFileContent.map (fun q => q.value)).getD "",
     comment.resolved,
     ⟨comment.author.displayName, comment.author.emailAddress.getD "",
       comment.content, false⟩ ::
       comment.replies.map (fun reply =>
         ⟨reply.author.displayName, reply.author.emailAddress.getD "",
          reply.content, true⟩)⟩ ::
    convertGo (index + 1) rest

/-- `convertDriveComments` of the source. -/
def convertDriveComments (comments : List DriveComment) : List CommentThread :=
  convertGo 0 (comments.filter keepDriveComment)

/-! ## Page-filtered transformer -/

structure PageFilterOptions where
  startPage : Option Int
  pageCount : Option Int
  charsPerPage : Option Nat
deriving DecidableEq

structure PageFilteredResult where
  markdown : String
  totalPages : Nat
  pageRange : Option (Int × Int)
  commentCount : Nat
deriving DecidableEq

/-- Modelled from the spec: `transformWithPageFilter` is exported by the
transformer module and exercised by the unit tests and the page route, but
its definition is not among the provided sources.  Spec 4.9: it composes
the Page Filter (4.2), the Thread Filter/Renumberer (4.3) and the Document
Transformer (4.8); with no page options it behaves identically to the
unfiltered transform and reports `totalPages` from the Page Estimator with
a null page range; with page options it returns the filtered markdown,
`totalPages`, the resolved page range and the count of surviving
threads. -/
def transformWithPageFilter (doc : GoogleDocsDocument)
    (threads : List CommentThread) (options : Option PageFilterOptions) :
    PageFilteredResult :=
  match options with
  | none =>
    ⟨transformToMarkdown doc threads,
     (estimatePages doc.content DEFAULT_CHARS_PER_PAGE).length,
     none,
     (filterAndRenumberThreads threads doc.content).length⟩
  | some opts =>
    let fr := filterByPageRange doc.content (opts.startPage.getD 1)
      opts.pageCount (opts.charsPerPage.getD DEFAULT_CHARS_PER_PAGE)
    let filteredThreads := filterAndRenumberThreads threads fr.elements
    let filteredDoc : GoogleDocsDocument := ⟨doc.title, fr.elements, doc.lists⟩
    ⟨transformToMarkdown filteredDoc filteredThreads,
     fr.totalPages,
     some (fr.startPage, fr.endPage),
     filteredThreads.length⟩

/-! ## General helper lemmas -/

theorem join_cons (s : String) (l : List String) :
    String.join (s :: l) = s ++ String.join l := by
  apply String.ext
  simp [String.join_eq]

theorem join_append (l1 l2 : List String) :
    String.join (l1 ++ l2) = String.join l1 ++ String.join l2 := by
  induction l1 with
  | nil =>
    apply String.ext
    simp [String.join_eq]
  | cons s l ih => rw [List.cons_append, join_cons, join_cons, ih, String.append_assoc]

theorem renumberGo_length (l : List CommentThread) : ∀ i, (renumberGo i l).length = l.length := by
  induction l with
  | nil => intro i; rfl
  | cons t ts ih => intro i; simp [renumberGo, ih (i + 1)]

theorem renumberGo_map_anchorId (l : List CommentThread) :
    ∀ i, (renumberGo i l).map (fun t => t.anchorId) =
      (List.range l.length).map (fun j => "c" ++ toString (i + j + 1)) := by
  induction l with
  | nil => intro i; rfl
  | cons t ts ih =>
    intro i
    simp only [renumberGo, List.map_cons, List.length_cons, List.range_succ_eq_map,
      List.map_map, ih (i + 1), Nat.add_zero]
    refine congrArg₂ List.cons rfl ?_
    apply List.map_congr_left
    intro j hj
    simp only [Function.comp_apply]
    exact congrArg (fun n => "c" ++ toString n) (by omega)

theorem renumberGo_id (l : List CommentThread) :
    ∀ i, (∀ (k : Nat) (hk : k < l.length), (l.get ⟨k, hk⟩).anchorId = "c" ++ toString (i + k + 1)) →
      renumberGo i l = l := by
  induction l with
  | nil => intro i _; rfl
  | cons t ts ih =>
    intro i h
    have h0 : t.anchorId = "c" ++ toString (i + 1) := by
      have := h 0 (by simp)
      simpa using this
    have htail : renumberGo (i + 1) ts = ts := by
      apply ih (i + 1)
      intro k hk
      have := h (k + 1) (by simpa using Nat.succ_lt_succ hk)
      simpa [Nat.add_assoc, Nat.add_comm, Nat.add_left_comm] using this
    cases t with
    | mk id anchorId quotedText resolved comments =>
      simp only [renumberGo, htail]
      simp_all

theorem filterAndRenumber_anchors (threads : List CommentThread)
    (elements : List StructuralElement) :
    (filterAndRenumberThreads threads elements).map (fun t => t.anchorId) =
      (List.range (filterAndRenumberThreads threads elements).length).map
        (fun j => "c" ++ toString (j + 1)) := by
  unfold filterAndRenumberThreads
  rw [renumberGo_map_anchorId, renumberGo_length]
  apply List.map_congr_left
  intro j hj
  exact congrArg (fun n => "c" ++ toString n) (by omega)

/-! ## C8: the text renderer -/

/-- C8: `extractTextContent` concatenates the rendered spans; a span with a
link URL renders as a markdown link with bold and italic ignored; otherwise
italic is applied first and bold second, so a bold and italic span renders
with bold outermost; the text of an unstyled span, embedded newlines
included, is returned verbatim. -/
theorem extractTextContent_spec :
    (∀ es1 es2 : List ParagraphElement,
      extractTextContent (es1 ++ es2) = extractTextContent es1 ++ extractTextContent es2) ∧
    (∀ (text url : String) (b i : Bool), url ≠ "" →
      extractTextContent [⟨some ⟨text, some ⟨b, i, some ⟨some url⟩⟩⟩, false⟩] =
        "[" ++ text ++ "](" ++ url ++ ")") ∧
    (∀ text : String,
      extractTextContent [⟨some ⟨text, some ⟨true, true, none⟩⟩, false⟩] =
        "**" ++ ("_" ++ text ++ "_") ++ "**") ∧
    (∀ text : String, extractTextContent [⟨some ⟨text, none⟩, false⟩] = text) := by
  refine ⟨?_, ?_, ?_, ?_⟩
  · intro es1 es2
    unfold extractTextContent
    rw [List.map_append, join_append]
  · intro text url b i h
    simp only [extractTextContent, applyTextStyle, List.map_cons, List.map_nil]
    simp only [Option.some_bind, Option.getD_some]
    rw [if_pos h]
    apply String.ext
    simp [String.join_eq]
  · intro text
    simp only [extractTextContent, applyTextStyle, List.map_cons, List.map_nil]
    apply String.ext
    simp [String.join_eq]
  · intro text
    simp only [extractTextContent, List.map_cons, List.map_nil]
    apply String.ext
    simp [String.join_eq]

/-- Witness for C8 at concrete spans, including a span whose text embeds a
newline. -/
theorem extractTextContent_spec_witness :
    extractTextContent [⟨some ⟨"Click", some ⟨true, false, some ⟨some "https://example.com"⟩⟩⟩, false⟩] =
      "[" ++ "Click" ++ "](" ++ "https://example.com" ++ ")" ∧
    extractTextContent [⟨some ⟨"Hello", some ⟨true, true, none⟩⟩, false⟩] =
      "**" ++ ("_" ++ "Hello" ++ "_") ++ "**" ∧
    extractTextContent [⟨some ⟨"Line1\nLine2", none⟩, false⟩] = "Line1\nLine2" :=
  ⟨extractTextContent_spec.2.1 "Click" "https://example.com" true false (by decide),
   extractTextContent_spec.2.2.1 "Hello",
   extractTextContent_spec.2.2.2 "Line1\nLine2"⟩

/-! ## C9: renumbering an already-contiguous thread list is the identity -/

/-- C9: if the anchor ids of the threads are already exactly c1..cN in
list order, every quoted text is non-empty, and every quoted text occurs
in the concatenated raw text of the given blocks, then
`filterAndRenumberThreads` returns the threads unchanged. -/
theorem filterAndRenumberThreads_id (threads : List CommentThread)
    (elements : List StructuralElement)
    (hanch : ∀ (k : Nat) (hk : k < threads.length),
      (threads.get ⟨k, hk⟩).anchorId = "c" ++ toString (k + 1))
    (hmatch : ∀ t ∈ threads, t.quotedText ≠ "" ∧
      strContains (extractAllText elements) t.quotedText = true) :
    filterAndRenumberThreads threads elements = threads := by
  unfold filterAndRenumberThreads
  have hfil : threads.filter (fun t =>
      t.quotedText != "" && strContains (extractAllText elements) t.quotedText) = threads := by
    rw [List.filter_eq_self]
    intro t ht
    obtain ⟨h1, h2⟩ := hmatch t ht
    simp [h1, h2]
  have hdef : (let fullText := extractAllText elements;
      let matching := List.filter (fun t =>
        t.quotedText != "" && strContains fullText t.quotedText) threads;
      renumberGo 0 matching) =
      renumberGo 0 (List.filter (fun t =>
        t.quotedText != "" && strContains (extractAllText elements) t.quotedText) threads) := rfl
  rw [hdef, hfil]
  apply renumberGo_id
  intro k hk
  rw [hanch k hk]
  exact congrArg (fun n => "c" ++ toString n) (by omega)

/-- Witness for C9: a two-thread list numbered c1, c2 whose quotes occur
in a one-paragraph document is returned unchanged. -/
theorem filterAndRenumberThreads_id_witness :
    filterAndRenumberThreads
      [⟨"1", "c1", "Alpha", false, []⟩, ⟨"2", "c2", "Gamma", false, []⟩]
      [⟨some ⟨[⟨some ⟨"Alpha Beta Gamma", none⟩, false⟩], none, none⟩⟩] =
      [⟨"1", "c1", "Alpha", false, []⟩, ⟨"2", "c2", "Gamma", false, []⟩] :=
  filterAndRenumberThreads_id _ _
    (by
      intro k hk
      have hk2 : k < 2 := hk
      interval_cases k <;> rfl)
    (by
      intro t ht
      simp only [List.mem_cons, List.not_mem_nil, or_false] at ht
      rcases ht with h | h <;> subst h <;> exact ⟨by decide, by decide⟩)

/-! ## C6: the six-paragraph concrete scenario -/

/-- A paragraph block holding exactly 1000 copies of one character. -/
def c6Para (ch : Char) : StructuralElement :=
  ⟨some ⟨[⟨some ⟨String.mk (List.replicate 1000 ch), none⟩, false⟩], none, none⟩⟩

/-- Six paragraph blocks of exactly 1000 characters each. -/
def c6Els : List StructuralElement :=
  [c6Para 'a', c6Para 'b', c6Para 'c', c6Para 'd', c6Para 'e', c6Para 'f']

set_option maxRecDepth 100000 in
/-- C6: six 1000-character paragraphs at a 3000-character budget estimate
to exactly two pages of three blocks each, with block ranges [0,3) and
[3,6); filtering to startPage 2, pageCount 1 returns exactly the last
three blocks; and the threads surviving that filter are renumbered to the
contiguous sequence c1, c2, ... in order. -/
theorem sixParagraph_pagination :
    (estimatePages c6Els 3000 = [⟨1, 0, 3, 3000⟩, ⟨2, 3, 6, 3000⟩]) ∧
    ((filterByPageRange c6Els 2 (some 1) 3000).elements = c6Els.drop 3) ∧
    (∀ threads : List CommentThread,
      (filterAndRenumberThreads threads
          ((filterByPageRange c6Els 2 (some 1) 3000).elements)).map (fun t => t.anchorId) =
        (List.range (filterAndRenumberThreads threads
          ((filterByPageRange c6Els 2 (some 1) 3000).elements)).length).map
          (fun j => "c" ++ toString (j + 1))) := by
  refine ⟨by decide, by decide, ?_⟩
  intro threads
  exact filterAndRenumber_anchors threads _

/-- Witness for C6 at a concrete thread list: a thread quoting text of the
second page (with a stale anchor id) survives and is renumbered to c1. -/
theorem sixParagraph_pagination_witness :
    (filterAndRenumberThreads
        [⟨"t1", "c7", String.mk (List.replicate 1000 'e'), false, []⟩]
        ((filterByPageRange c6Els 2 (some 1) 3000).elements)).map (fun t => t.anchorId) =
      (List.range (filterAndRenumberThreads
        [⟨"t1", "c7", String.mk (List.replicate 1000 'e'), false, []⟩]
        ((filterByPageRange c6Els 2 (some 1) 3000).elements)).length).map
        (fun j => "c" ++ toString (j + 1)) :=
  sixParagraph_pagination.2.2 [⟨"t1", "c7", String.mk (List.replicate 1000 'e'), false, []⟩]

/-! ## C10: Drive comment conversion -/

theorem convertGo_map_id (cs : List DriveComment) :
    ∀ i, (convertGo i cs).map (fun t => t.id) = cs.map (fun c => c.id) := by
  induction cs with
  | nil => intro i; rfl
  | cons c rest ih => intro i; simp [convertGo, ih (i + 1)]

theorem convertGo_map_quotedText (cs : List DriveComment) :
    ∀ i, (convertGo i cs).map (fun t => t.quotedText) =
      cs.map (fun c => (c.quotedFileContent.map (fun q => q.value)).getD "") := by
  induction cs with
  | nil => intro i; rfl
  | cons c rest ih => intro i; simp [convertGo, ih (i + 1)]

theorem convertGo_length (cs : List DriveComment) :
    ∀ i, (convertGo i cs).length = cs.length := by
  induction cs with
  | nil => intro i; rfl
  | cons c rest ih => intro i; simp [convertGo, ih (i + 1)]

theorem convertGo_map_anchorId (cs : List DriveComment) :
    ∀ i, (convertGo i cs).map (fun t => t.anchorId) =
      (List.range cs.length).map (fun j => "c" ++ toString (i + j + 1)) := by
  induction cs with
  | nil => intro i; rfl
  | cons c rest ih =>
    intro i
    simp only [convertGo, List.map_cons, List.length_cons, List.range_succ_eq_map,
      List.map_map, ih (i + 1), Nat.add_zero]
    refine congrArg₂ List.cons rfl ?_
    apply List.map_congr_left
    intro j hj
    simp only [Function.comp_apply]
    exact congrArg (fun n => "c" ++ toString n) (by omega)

/-- C10: `convertDriveComments` drops exactly the comments that are both
resolved and without quoted file content, keeps all others in API order,
gives a kept comment without quoted content the empty quoted text, and
assigns anchor ids c1..cN in the order of the surviving comments. -/
theorem convertDriveComments_spec (cs : List DriveComment) :
    ((convertDriveComments cs).map (fun t => t.id) =
      (cs.filter keepDriveComment).map (fun c => c.id)) ∧
    ((convertDriveComments cs).map (fun t => t.quotedText) =
      (cs.filter keepDriveComment).map
        (fun c => (c.quotedFileContent.map (fun q => q.value)).getD "")) ∧
    ((convertDriveComments cs).map (fun t => t.anchorId) =
      (List.range (cs.filter keepDriveComment).length).map
        (fun j => "c" ++ toString (j + 1))) ∧
    (∀ c ∈ cs, c.resolved = true → c.quotedFileContent = none →
      keepDriveComment c = false) ∧
    (∀ c ∈ cs, (c.resolved = false ∨ c.quotedFileContent.isSome) →
      c.id ∈ (convertDriveComments cs).map (fun t => t.id)) := by
  refine ⟨convertGo_map_id _ 0, convertGo_map_quotedText _ 0, ?_, ?_, ?_⟩
  · rw [convertDriveComments, convertGo_map_anchorId]
    apply List.map_congr_left
    intro j hj
    exact congrArg (fun n => "c" ++ toString n) (by omega)
  · intro c _ hres hq
    simp [keepDriveComment, hres, hq]
  · intro c hc hkeep
    rw [convertDriveComments, convertGo_map_id]
    apply List.mem_map_of_mem
    rw [List.mem_filter]
    refine ⟨hc, ?_⟩
    rcases hkeep with h | h
    · simp [keepDriveComment, h]
    · simp [keepDriveComment, h]

/-- Witness for C10: one resolved comment without quoted content is
dropped; an unresolved comment without quoted content is kept with empty
quoted text and anchor id c1. -/
theorem convertDriveComments_spec_witness :
    ((convertDriveComments
        [⟨"d1", "done", true, none, ⟨"Ann", none⟩, []⟩,
         ⟨"d2", "open", false, none, ⟨"Bob", some "b@t.com"⟩, []⟩]).map (fun t => t.id) =
      ([⟨"d1", "done", true, none, ⟨"Ann", none⟩, []⟩,
        ⟨"d2", "open", false, none, ⟨"Bob", some "b@t.com"⟩, []⟩].filter
          keepDriveComment).map (fun c => c.id)) ∧
    ((convertDriveComments
        [⟨"d1", "done", true, none, ⟨"Ann", none⟩, []⟩,
         ⟨"d2", "open", false, none, ⟨"Bob", some "b@t.com"⟩, []⟩]).map (fun t => t.quotedText) =
      ([⟨"d1", "done", true, none, ⟨"Ann", none⟩, []⟩,
        ⟨"d2", "open", false, none, ⟨"Bob", some "b@t.com"⟩, []⟩].filter
          keepDriveComment).map
        (fun c => (c.quotedFileContent.map (fun q => q.value)).getD "")) :=
  ⟨(convertDriveComments_spec _).1, (convertDriveComments_spec _).2.1⟩

/-! ## C1 and C2: concrete transformer evaluations

The repository's unit tests require the transformer to consume each
anchor at most once across the whole document and to number anchors by
document position.  The saved theorems evaluate `transformToMarkdown` at
inputs mirroring those tests. -/

/-- Number of (start positions of) occurrences of `pat` in `s`. -/
def countOccurAux (pat : List Char) : List Char → Nat
  | [] => if pat.isEmpty then 1 else 0
  | c :: cs => (if charsStartWith pat (c :: cs) then 1 else 0) + countOccurAux pat cs

def countOccur (s pat : String) : Nat :=
  countOccurAux pat.data s.data

/-- A plain paragraph block with a single unstyled text run. -/
def plainPara (text : String) : StructuralElement :=
  ⟨some ⟨[⟨some ⟨text, none⟩, false⟩], none, none⟩⟩

/-- The two-paragraph document of the repository test
"does not duplicate comment when quoted text appears in multiple
paragraphs". -/
def surrenderDoc : GoogleDocsDocument :=
  ⟨"Test Doc",
   [plainPara "First paragraph mentions surrender here.",
    plainPara "Second paragraph also says surrender again."], []⟩

def surrenderThread : CommentThread :=
  ⟨"1", "c1", "surrender", false,
   [⟨"Alice", "a@t.com", "What does this mean?", false⟩]⟩

set_option maxRecDepth 100000 in
/-- C1 (behaviour of the code at the failing input): with one thread whose
quoted text occurs in two different blocks, `transformToMarkdown` emits
the anchor marker twice and the thread's blockquote twice — not once, as
the claim, the spec and the repository's own unit test require. -/
theorem transformToMarkdown_duplicates_anchor :
    countOccur (transformToMarkdown surrenderDoc [surrenderThread]) "]^[c1]" = 2 ∧
    countOccur (transformToMarkdown surrenderDoc [surrenderThread])
      "> [c1] **Alice** (a@t.com):" = 2 := by
  decide

/-- The two-paragraph document of the repository test "numbers comments by
document position, not API order". -/
def wordDoc : GoogleDocsDocument :=
  ⟨"Test Doc",
   [plainPara "First paragraph with wordA in it.",
    plainPara "Second paragraph with wordB in it."], []⟩

/-- Threads in API order: the thread quoting wordB was supplied first and
so carries anchor id c1; the thread quoting wordA carries c2. -/
def wordThreads : List CommentThread :=
  [⟨"api-first", "c1", "wordB", false, [⟨"Bob", "b@t.com", "On B", false⟩]⟩,
   ⟨"api-second", "c2", "wordA", false, [⟨"Alice", "a@t.com", "On A", false⟩]⟩]

set_option maxRecDepth 100000 in
/-- C2 (behaviour of the code at the failing input): anchor ids in the
output follow the input order of the threads, not document position —
wordA, whose first occurrence is earlier in the document, renders with the
higher anchor id c2, and wordB with c1. -/
theorem transformToMarkdown_numbers_by_input_order :
    strContains (transformToMarkdown wordDoc wordThreads) "[wordA]^[c2]" = true ∧
    strContains (transformToMarkdown wordDoc wordThreads) "[wordB]^[c1]" = true ∧
    strContains (transformToMarkdown wordDoc wordThreads) "[wordA]^[c1]" = false ∧
    strContains (transformToMarkdown wordDoc wordThreads) "[wordB]^[c2]" = false := by
  decide

/-! ## Page estimator invariants (towards C3, C5, C7)

`coverCount pages idx` counts the boundaries whose half-open block range
contains `idx`; `openInd start idx` is the contribution of the currently
open page `[start, i)`; `breakAt els idx` is the hard-page-break flag of
block `idx`. -/

def pageHas (p : PageBoundary) (idx : Nat) : Bool :=
  decide (p.startElementIndex ≤ idx ∧ idx < p.endElementIndex)

def coverCount (pages : List PageBoundary) (idx : Nat) : Nat :=
  pages.countP (fun p => pageHas p idx)

def openInd (start idx : Nat) : Nat :=
  if start ≤ idx then 1 else 0

def breakAt (els : List StructuralElement) (idx : Nat) : Bool :=
  match els.get? idx with
  | some e => hasPageBreak e
  | none => false

/-- The inductive invariant of the `estimatePages` loop state. -/
def estInv (i : Nat) (pages : List PageBoundary) (start pn : Nat) : Prop :=
  pn = pages.length + 1 ∧
  pages.map (fun p => p.pageNumber) = List.range' 1 pages.length ∧
  (∀ p ∈ pages, p.startElementIndex ≤ p.endElementIndex ∧ p.endElementIndex ≤ start) ∧
  start ≤ i

theorem coverCount_append (pages : List PageBoundary) (pg : PageBoundary) (idx : Nat) :
    coverCount (pages ++ [pg]) idx =
      coverCount pages idx + (if pageHas pg idx = true then 1 else 0) := by
  simp [coverCount, List.countP_append, List.countP_cons]

theorem coverCount_zero (pages : List PageBoundary) (idx : Nat)
    (h : ∀ p ∈ pages, p.endElementIndex ≤ idx) : coverCount pages idx = 0 := by
  rw [coverCount, List.countP_eq_zero]
  intro p hp
  simp only [pageHas, decide_eq_true_eq]
  intro hc
  exact absurd hc.2 (Nat.not_lt.mpr (h p hp))

theorem numbering_append (pages : List PageBoundary) (pg : PageBoundary)
    (hnum : pages.map (fun p => p.pageNumber) = List.range' 1 pages.length)
    (hpg : pg.pageNumber = pages.length + 1) :
    (pages ++ [pg]).map (fun p => p.pageNumber) = List.range' 1 (pages ++ [pg]).length := by
  rw [List.map_append, hnum, List.length_append]
  simp only [List.map_cons, List.map_nil, hpg, List.length_cons, List.length_nil]
  rw [List.range'_concat]
  congr 1
  simp
  omega

theorem openInd_zero {s idx : Nat} (h : idx < s) : openInd s idx = 0 := by
  unfold openInd
  rw [if_neg (Nat.not_le.mpr h)]

theorem openInd_one {s idx : Nat} (h : s ≤ idx) : openInd s idx = 1 := by
  unfold openInd
  rw [if_pos h]

theorem pageHas_true {p : PageBoundary} {idx : Nat}
    (h1 : p.startElementIndex ≤ idx) (h2 : idx < p.endElementIndex) :
    pageHas p idx = true := by
  simp [pageHas, h1, h2]

theorem pageHas_false_left {p : PageBoundary} {idx : Nat}
    (h : idx < p.startElementIndex) : pageHas p idx = false := by
  simp only [pageHas, decide_eq_false_iff_not]
  intro hc
  exact absurd h (Nat.not_lt.mpr hc.1)

theorem pageHas_false_right {p : PageBoundary} {idx : Nat}
    (h : p.endElementIndex ≤ idx) : pageHas p idx = false := by
  simp only [pageHas, decide_eq_false_iff_not]
  intro hc
  exact absurd hc.2 (Nat.not_lt.mpr h)

theorem estimateLoop_inv (cpp : Nat) (rest : List StructuralElement) :
    ∀ (i : Nat) (pages : List PageBoundary) (start count pn : Nat),
    estInv i pages start pn →
    estInv (i + rest.length) (estimateLoop cpp rest i pages start count pn).1
      (estimateLoop cpp rest i pages start count pn).2.1
      (estimateLoop cpp rest i pages start count pn).2.2.2 ∧
    (∀ idx, idx < i →
      coverCount (estimateLoop cpp rest i pages start count pn).1 idx +
        openInd (estimateLoop cpp rest i pages start count pn).2.1 idx =
      coverCount pages idx + openInd start idx) ∧
    (∀ j (hj : j < rest.length),
      coverCount (estimateLoop cpp rest i pages start count pn).1 (i + j) +
        openInd (estimateLoop cpp rest i pages start count pn).2.1 (i + j) =
      if hasPageBreak (rest.get ⟨j, hj⟩) then 0 else 1) := by
  induction rest with
  | nil =>
    intro i pages start count pn hinv
    refine ⟨?_, ?_, ?_⟩
    · simpa [estimateLoop] using hinv
    · intro idx _
      rfl
    · intro j hj
      exact absurd hj (by simp)
  | cons e rest ih =>
    intro i pages start count pn hinv
    obtain ⟨hpn, hnum, hrange, hstart⟩ := hinv
    by_cases hb : hasPageBreak e = true
    · by_cases hcond : start < i ∨ 0 < count
      · -- break branch, a page is pushed
        have heq : estimateLoop cpp (e :: rest) i pages start count pn =
            estimateLoop cpp rest (i + 1)
              (pages ++ [⟨pn, start, i, count⟩]) (i + 1) 0 (pn + 1) := by
          rw [estimateLoop, if_pos hb, if_pos hcond]
        have hinv2 : estInv (i + 1) (pages ++ [⟨pn, start, i, count⟩]) (i + 1) (pn + 1) := by
          refine ⟨by simp [hpn], numbering_append _ _ hnum (by simp [hpn]), ?_, le_refl _⟩
          intro p hp
          rcases List.mem_append.mp hp with h | h
          · exact ⟨(hrange p h).1, le_trans (le_trans (hrange p h).2 hstart) (Nat.le_succ i)⟩
          · simp only [List.mem_singleton] at h
            subst h
            exact ⟨hstart, Nat.le_succ i⟩
        obtain ⟨q1, q2, q3⟩ := ih (i + 1) (pages ++ [⟨pn, start, i, count⟩]) (i + 1) 0 (pn + 1) hinv2
        rw [heq]
        refine ⟨by simpa [Nat.add_assoc, Nat.add_comm, Nat.add_left_comm] using q1, ?_, ?_⟩
        · intro idx hidx
          rw [q2 idx (by omega), coverCount_append,
            openInd_zero (show idx < i + 1 by omega)]
          by_cases hin : start ≤ idx
          · rw [show pageHas ⟨pn, start, i, count⟩ idx = true from pageHas_true hin hidx,
              openInd_one hin]
            simp
          · have hlt := Nat.lt_of_not_le hin
            rw [show pageHas ⟨pn, start, i, count⟩ idx = false from pageHas_false_left hlt,
              openInd_zero hlt]
            simp
        · intro j hj
          cases j with
          | zero =>
            rw [show i + 0 = i from rfl,
              q2 i (Nat.lt_succ_self i), coverCount_append,
              coverCount_zero pages i (fun p hp => le_trans (hrange p hp).2 hstart),
              show pageHas ⟨pn, start, i, count⟩ i = false from
                pageHas_false_right (le_refl i),
              openInd_zero (Nat.lt_succ_self i)]
            simp [hb]
          | succ j2 =>
            have hj2 : j2 < rest.length := by simpa using Nat.lt_of_succ_lt_succ hj
            have hq := q3 j2 hj2
            rw [show i + 1 + j2 = i + (j2 + 1) by omega] at hq
            rw [hq]
            rfl
      · -- break branch, nothing pushed: start = i and count = 0
        have heq : estimateLoop cpp (e :: rest) i pages start count pn =
            estimateLoop cpp rest (i + 1) pages (i + 1) 0 pn := by
          rw [estimateLoop, if_pos hb, if_neg hcond]
        have hsi : start = i := by omega
        have hinv2 : estInv (i + 1) pages (i + 1) pn := by
          refine ⟨hpn, hnum, ?_, le_refl _⟩
          intro p hp
          exact ⟨(hrange p hp).1, le_trans (le_trans (hrange p hp).2 hstart) (Nat.le_succ i)⟩
        obtain ⟨q1, q2, q3⟩ := ih (i + 1) pages (i + 1) 0 pn hinv2
        rw [heq]
        refine ⟨by simpa [Nat.add_assoc, Nat.add_comm, Nat.add_left_comm] using q1, ?_, ?_⟩
        · intro idx hidx
          rw [q2 idx (by omega), openInd_zero (show idx < i + 1 by omega),
            openInd_zero (show idx < start by omega)]
        · intro j hj
          cases j with
          | zero =>
            rw [show i + 0 = i from rfl, q2 i (Nat.lt_succ_self i),
              coverCount_zero pages i (fun p hp => le_trans (hrange p hp).2 hstart),
              openInd_zero (Nat.lt_succ_self i)]
            simp [hb]
          | succ j2 =>
            have hj2 : j2 < rest.length := by simpa using Nat.lt_of_succ_lt_succ hj
            have hq := q3 j2 hj2
            rw [show i + 1 + j2 = i + (j2 + 1) by omega] at hq
            rw [hq]
            rfl
    · -- no page break on this block
      have hbf : hasPageBreak e = false := by simpa using hb
      by_cases hcond : count + getElementCharCount e > cpp ∧ start < i
      · -- over budget: the page is closed before this block
        have heq : estimateLoop cpp (e :: rest) i pages start count pn =
            estimateLoop cpp rest (i + 1)
              (pages ++ [⟨pn, start, i, count⟩]) i (getElementCharCount e) (pn + 1) := by
          rw [estimateLoop, if_neg (by simp [hbf]), if_pos hcond]
        have hinv2 : estInv (i + 1) (pages ++ [⟨pn, start, i, count⟩]) i (pn + 1) := by
          refine ⟨by simp [hpn], numbering_append _ _ hnum (by simp [hpn]), ?_, Nat.le_succ i⟩
          intro p hp
          rcases List.mem_append.mp hp with h | h
          · exact ⟨(hrange p h).1, le_trans (hrange p h).2 hstart⟩
          · simp only [List.mem_singleton] at h
            subst h
            exact ⟨hstart, le_refl i⟩
        obtain ⟨q1, q2, q3⟩ :=
          ih (i + 1) (pages ++ [⟨pn, start, i, count⟩]) i (getElementCharCount e) (pn + 1) hinv2
        rw [heq]
        refine ⟨by simpa [Nat.add_assoc, Nat.add_comm, Nat.add_left_comm] using q1, ?_, ?_⟩
        · intro idx hidx
          rw [q2 idx (by omega), coverCount_append, openInd_zero hidx]
          by_cases hin : start ≤ idx
          · rw [show pageHas ⟨pn, start, i, count⟩ idx = true from pageHas_true hin hidx,
              openInd_one hin]
            simp
          · have hlt := Nat.lt_of_not_le hin
            rw [show pageHas ⟨pn, start, i, count⟩ idx = false from pageHas_false_left hlt,
              openInd_zero hlt]
            simp
        · intro j hj
          cases j with
          | zero =>
            rw [show i + 0 = i from rfl, q2 i (Nat.lt_succ_self i), coverCount_append,
              coverCount_zero pages i (fun p hp => le_trans (hrange p hp).2 hstart),
              show pageHas ⟨pn, start, i, count⟩ i = false from
                pageHas_false_right (le_refl i),
              openInd_one (le_refl i)]
            simp [hbf]
          | succ j2 =>
            have hj2 : j2 < rest.length := by simpa using Nat.lt_of_succ_lt_succ hj
            have hq := q3 j2 hj2
            rw [show i + 1 + j2 = i + (j2 + 1) by omega] at hq
            rw [hq]
            rfl
      · -- within budget: the block joins the current page
        have heq : estimateLoop cpp (e :: rest) i pages start count pn =
            estimateLoop cpp rest (i + 1) pages start (count + getElementCharCount e) pn := by
          rw [estimateLoop, if_neg (by simp [hbf]), if_neg hcond]
        have hinv2 : estInv (i + 1) pages start pn :=
          ⟨hpn, hnum, hrange, le_trans hstart (Nat.le_succ i)⟩
        obtain ⟨q1, q2, q3⟩ := ih (i + 1) pages start (count + getElementCharCount e) pn hinv2
        rw [heq]
        refine ⟨by simpa [Nat.add_assoc, Nat.add_comm, Nat.add_left_comm] using q1, ?_, ?_⟩
        · intro idx hidx
          exact q2 idx (by omega)
        · intro j hj
          cases j with
          | zero =>
            rw [show i + 0 = i from rfl, q2 i (Nat.lt_succ_self i),
              coverCount_zero pages i (fun p hp => le_trans (hrange p hp).2 hstart),
              openInd_one hstart]
            simp [hbf]
          | succ j2 =>
            have hj2 : j2 < rest.length := by simpa using Nat.lt_of_succ_lt_succ hj
            have hq := q3 j2 hj2
            rw [show i + 1 + j2 = i + (j2 + 1) by omega] at hq
            rw [hq]
            rfl

theorem estimatePages_spec (els : List StructuralElement) (cpp : Nat) :
    ((estimatePages els cpp).map (fun p => p.pageNumber) =
      List.range' 1 (estimatePages els cpp).length) ∧
    (∀ p ∈ estimatePages els cpp,
      p.startElementIndex ≤ p.endElementIndex ∧ p.endElementIndex ≤ els.length) ∧
    (1 ≤ (estimatePages els cpp).length) ∧
    (∀ idx, idx < els.length →
      coverCount (estimatePages els cpp) idx = if breakAt els idx then 0 else 1) := by
  by_cases hnil : els.length = 0
  · have hdef : estimatePages els cpp = [⟨1, 0, 0, 0⟩] := by
      rw [estimatePages, if_pos hnil]
    rw [hdef]
    refine ⟨by decide, ?_, by decide, ?_⟩
    · intro p hp
      simp only [List.mem_singleton] at hp
      subst hp
      exact ⟨Nat.le_refl 0, Nat.zero_le _⟩
    · intro idx hidx
      omega
  · obtain ⟨⟨hpn, hnum, hrange, hstart⟩, _, hcov⟩ :=
      estimateLoop_inv cpp els 0 [] 0 0 1 ⟨rfl, rfl, by simp, Nat.le_refl 0⟩
    rw [Nat.zero_add] at hstart
    have hdef : estimatePages els cpp =
        (if (estimateLoop cpp els 0 [] 0 0 1).2.1 ≤ els.length - 1 ∨
            (estimateLoop cpp els 0 [] 0 0 1).1.length = 0 then
          (estimateLoop cpp els 0 [] 0 0 1).1 ++
            [⟨(estimateLoop cpp els 0 [] 0 0 1).2.2.2,
              (estimateLoop cpp els 0 [] 0 0 1).2.1, els.length,
              (estimateLoop cpp els 0 [] 0 0 1).2.2.1⟩]
        else (estimateLoop cpp els 0 [] 0 0 1).1) := by
      rw [estimatePages, if_neg hnil]
    by_cases hfin : (estimateLoop cpp els 0 [] 0 0 1).2.1 ≤ els.length - 1 ∨
        (estimateLoop cpp els 0 [] 0 0 1).1.length = 0
    · rw [if_pos hfin] at hdef
      rw [hdef]
      refine ⟨?_, ?_, ?_, ?_⟩
      · exact numbering_append _ _ hnum hpn
      · intro p hp
        rcases List.mem_append.mp hp with h | h
        · exact ⟨(hrange p h).1, le_trans (hrange p h).2 hstart⟩
        · simp only [List.mem_singleton] at h
          subst h
          exact ⟨hstart, Nat.le_refl _⟩
      · simp
      · intro idx hidx
        have hc := hcov idx (by simpa using hidx)
        rw [Nat.zero_add] at hc
        rw [coverCount_append]
        have hbreak : breakAt els idx = hasPageBreak (els.get ⟨idx, hidx⟩) := by
          rw [breakAt, List.get?_eq_get hidx]
        rw [hbreak]
        by_cases hin : (estimateLoop cpp els 0 [] 0 0 1).2.1 ≤ idx
        · rw [show pageHas ⟨(estimateLoop cpp els 0 [] 0 0 1).2.2.2,
              (estimateLoop cpp els 0 [] 0 0 1).2.1, els.length,
              (estimateLoop cpp els 0 [] 0 0 1).2.2.1⟩ idx = true from
            pageHas_true hin hidx]
          rw [← hc, openInd_one hin]
          simp
        · have hlt := Nat.lt_of_not_le hin
          rw [show pageHas ⟨(estimateLoop cpp els 0 [] 0 0 1).2.2.2,
              (estimateLoop cpp els 0 [] 0 0 1).2.1, els.length,
              (estimateLoop cpp els 0 [] 0 0 1).2.2.1⟩ idx = false from
            pageHas_false_left hlt]
          rw [← hc, openInd_zero hlt]
          simp
    · rw [if_neg hfin] at hdef
      push_neg at hfin
      obtain ⟨hgt, hne⟩ := hfin
      have hstart2 : (estimateLoop cpp els 0 [] 0 0 1).2.1 = els.length := by omega
      rw [hdef]
      refine ⟨hnum, ?_, ?_, ?_⟩
      · intro p hp
        exact ⟨(hrange p hp).1, le_trans (hrange p hp).2 hstart⟩
      · omega
      · intro idx hidx
        have hc := hcov idx (by simpa using hidx)
        rw [Nat.zero_add] at hc
        have hbreak : breakAt els idx = hasPageBreak (els.get ⟨idx, hidx⟩) := by
          rw [breakAt, List.get?_eq_get hidx]
        rw [hbreak, ← hc, openInd_zero (by omega)]
        omega

/-! ## C3: page ranges partition the input -/

/-- C3 (amended): the page boundary ranges of `estimatePages` are ordered
with 1-based contiguous page numbers, and every block index of the input
that is not flagged as a hard page break lies in exactly one boundary
range, while a break-flagged index lies in none (the break-bearing block
is excluded from every page). -/
theorem estimatePages_coverage (els : List StructuralElement) (cpp : Nat) :
    (∀ idx, idx < els.length → breakAt els idx = false →
      coverCount (estimatePages els cpp) idx = 1) ∧
    (∀ idx, idx < els.length → breakAt els idx = true →
      coverCount (estimatePages els cpp) idx = 0) ∧
    ((estimatePages els cpp).map (fun p => p.pageNumber) =
      List.range' 1 (estimatePages els cpp).length) ∧
    1 ≤ (estimatePages els cpp).length := by
  obtain ⟨hnum, _, hlen, hcov⟩ := estimatePages_spec els cpp
  refine ⟨?_, ?_, hnum, hlen⟩
  · intro idx h hb
    rw [hcov idx h, hb]
    rfl
  · intro idx h hb
    rw [hcov idx h, hb]
    rfl

/-- Witness for C3 at a one-paragraph document: block 0 is not a break and
lies in exactly one page range, and the page numbers are [1]. -/
theorem estimatePages_coverage_witness :
    coverCount (estimatePages [plainPara "Hello"] 3000) 0 = 1 ∧
    (estimatePages [plainPara "Hello"] 3000).map (fun p => p.pageNumber) =
      List.range' 1 (estimatePages [plainPara "Hello"] 3000).length :=
  ⟨(estimatePages_coverage [plainPara "Hello"] 3000).1 0 (by decide) (by decide),
   (estimatePages_coverage [plainPara "Hello"] 3000).2.2.1⟩

/-- A block consisting only of a hard page break. -/
def breakOnlyElement : StructuralElement :=
  ⟨some ⟨[⟨none, true⟩], none, none⟩⟩

/-- Counterexample to C3 as stated: for the one-block input whose block is
flagged as a hard page break, the estimator returns the single empty range
[1,1), so block index 0 lies in no boundary range rather than in exactly
one. -/
theorem estimatePages_coverage_counterexample :
    estimatePages [breakOnlyElement] 3000 = [⟨1, 1, 1, 0⟩] ∧
    coverCount (estimatePages [breakOnlyElement] 3000) 0 = 0 := by
  decide

/-! ## C5: a block is never split across pages -/

/-- C5 (amended): no block index ever lies in two page ranges; a one-block
input yields exactly one page, and when the block is not flagged as a hard
page break that page is [0,1), containing the block whole (with its full
character count) no matter how far the count exceeds the budget. -/
theorem estimatePages_no_split :
    (∀ (els : List StructuralElement) (cpp idx : Nat),
      coverCount (estimatePages els cpp) idx ≤ 1) ∧
    (∀ (e : StructuralElement) (cpp : Nat), (estimatePages [e] cpp).length = 1) ∧
    (∀ (e : StructuralElement) (cpp : Nat), hasPageBreak e = false →
      estimatePages [e] cpp = [⟨1, 0, 1, getElementCharCount e⟩]) := by
  have hone : ∀ (e : StructuralElement) (cpp : Nat), hasPageBreak e = false →
      estimatePages [e] cpp = [⟨1, 0, 1, getElementCharCount e⟩] := by
    intro e cpp hbf
    simp [estimatePages, estimateLoop, hbf]
  refine ⟨?_, ?_, hone⟩
  · intro els cpp idx
    obtain ⟨_, hrange, _, hcov⟩ := estimatePages_spec els cpp
    by_cases hidx : idx < els.length
    · rw [hcov idx hidx]
      by_cases hb : breakAt els idx = true
      · rw [if_pos hb]
        omega
      · rw [if_neg hb]
    · have : coverCount (estimatePages els cpp) idx = 0 :=
        coverCount_zero _ _ (fun p hp => le_trans (hrange p hp).2 (by omega))
      omega
  · intro e cpp
    by_cases hbe : hasPageBreak e = true
    · simp [estimatePages, estimateLoop, hbe]
    · rw [hone e cpp (by simpa using hbe)]
      rfl

/-- Witness for C5: a one-block document whose 12-character block exceeds
a 10-character budget still occupies the single page [0,1) whole. -/
theorem estimatePages_no_split_witness :
    estimatePages [plainPara "Hello World."] 10 =
      [⟨1, 0, 1, getElementCharCount (plainPara "Hello World.")⟩] :=
  estimatePages_no_split.2.2 (plainPara "Hello World.") 10 (by decide)

/-- Counterexample to C5 as stated: the one-block input consisting of a
hard page break yields exactly one page, but that page is the empty range
[1,1) and does not contain the block. -/
theorem estimatePages_no_split_counterexample :
    (estimatePages [breakOnlyElement] 3000).length = 1 ∧
    pageHas ⟨1, 1, 1, 0⟩ 0 = false ∧
    (estimatePages [breakOnlyElement] 3000).countP (fun p => pageHas p 0) = 0 := by
  decide

/-! ## C7: filterByPageRange clamps and never raises -/

theorem countP_lastPage_range (n : Nat) (hn : 1 ≤ n) :
    List.countP
      (fun k : Nat => decide ((n : Int) ≤ (k : Int)) && decide ((k : Int) ≤ (n : Int)))
      (List.range' 1 n) = 1 := by
  obtain ⟨m, rfl⟩ : ∃ m, n = m + 1 := ⟨n - 1, by omega⟩
  rw [List.range'_concat, List.countP_append]
  have h1 : List.countP
      (fun k : Nat => decide (((m + 1 : Nat) : Int) ≤ (k : Int)) &&
        decide ((k : Int) ≤ ((m + 1 : Nat) : Int))) (List.range' 1 m) = 0 := by
    rw [List.countP_eq_zero]
    intro k hk
    rw [List.mem_range'_1] at hk
    simp only [Bool.and_eq_true, decide_eq_true_eq, not_and]
    intro hge
    exfalso
    have : ((m + 1 : Nat) : Int) ≤ (k : Int) := hge
    omega
  rw [h1]
  simp only [List.countP_cons, List.countP_nil]
  have h3 : (1 + 1 * m : Nat) = m + 1 := by omega
  rw [h3]
  simp

theorem filter_lastPage (pages : List PageBoundary)
    (hnum : pages.map (fun p => p.pageNumber) = List.range' 1 pages.length)
    (hlen : 1 ≤ pages.length) :
    (pages.filter (fun p =>
      decide ((pages.length : Int) ≤ (p.pageNumber : Int)) &&
      decide ((p.pageNumber : Int) ≤ (pages.length : Int)))).length = 1 := by
  rw [← List.countP_eq_length_filter]
  rw [show (fun p : PageBoundary =>
      decide ((pages.length : Int) ≤ (p.pageNumber : Int)) &&
      decide ((p.pageNumber : Int) ≤ (pages.length : Int))) =
    ((fun k : Nat => decide ((pages.length : Int) ≤ (k : Int)) &&
      decide ((k : Int) ≤ (pages.length : Int))) ∘ (fun p : PageBoundary => p.pageNumber))
    from rfl]
  rw [← List.countP_map, hnum]
  exact countP_lastPage_range _ hlen

/-- C7 (amended): for every block sequence, every integer `startPage`
(zero and negative included) and every optional `pageCount`,
`filterByPageRange` is total and clamps: `startPage` is clamped into
[1, totalPages]; `endPage` is `totalPages` when `pageCount` is absent and
`min(clampedStart + pageCount - 1, totalPages)` otherwise, so a
`pageCount` extending past the end clamps to the last page; a `startPage`
beyond the last page clamps to the last page and — when `pageCount` is
absent or at least 1 — selects exactly one page (a zero or negative
`pageCount` instead selects no page). -/
theorem filterByPageRange_clamps (els : List StructuralElement) (s : Int)
    (pc : Option Int) (cpp : Nat) :
    ((filterByPageRange els s pc cpp).totalPages = (estimatePages els cpp).length) ∧
    ((filterByPageRange els s pc cpp).startPage =
      min (max 1 s) (((estimatePages els cpp).length : Nat) : Int)) ∧
    (1 ≤ (filterByPageRange els s pc cpp).startPage ∧
      (filterByPageRange els s pc cpp).startPage ≤
        (((filterByPageRange els s pc cpp).totalPages : Nat) : Int)) ∧
    (pc = none → (filterByPageRange els s pc cpp).endPage =
      (((estimatePages els cpp).length : Nat) : Int)) ∧
    (∀ c : Int, pc = some c → (filterByPageRange els s pc cpp).endPage =
      min ((filterByPageRange els s pc cpp).startPage + c - 1)
        (((estimatePages els cpp).length : Nat) : Int)) ∧
    ((((estimatePages els cpp).length : Nat) : Int) < s →
      (pc = none ∨ ∃ c : Int, pc = some c ∧ 1 ≤ c) →
      (filterByPageRange els s pc cpp).startPage =
        (((estimatePages els cpp).length : Nat) : Int) ∧
      (filterByPageRange els s pc cpp).endPage =
        (((estimatePages els cpp).length : Nat) : Int) ∧
      ((estimatePages els cpp).filter (fun p =>
        decide ((filterByPageRange els s pc cpp).startPage ≤ (p.pageNumber : Int)) &&
        decide ((p.pageNumber : Int) ≤ (filterByPageRange els s pc cpp).endPage))).length = 1) := by
  obtain ⟨hnum, _, hlen, _⟩ := estimatePages_spec els cpp
  have hT : (1 : Int) ≤ (((estimatePages els cpp).length : Nat) : Int) := by
    exact_mod_cast hlen
  have hsp : (filterByPageRange els s pc cpp).startPage =
      min (max 1 s) (((estimatePages els cpp).length : Nat) : Int) := rfl
  have hepn : pc = none → (filterByPageRange els s pc cpp).endPage =
      (((estimatePages els cpp).length : Nat) : Int) := by
    intro h
    subst h
    rfl
  have heps : ∀ c : Int, pc = some c → (filterByPageRange els s pc cpp).endPage =
      min ((filterByPageRange els s pc cpp).startPage + c - 1)
        (((estimatePages els cpp).length : Nat) : Int) := by
    intro c h
    subst h
    rfl
  refine ⟨rfl, hsp,
    ⟨by rw [hsp]; omega,
     by
      rw [hsp, show (filterByPageRange els s pc cpp).totalPages =
        (estimatePages els cpp).length from rfl]
      omega⟩, hepn, heps, ?_⟩
  intro hs hpc
  have hspT : (filterByPageRange els s pc cpp).startPage =
      (((estimatePages els cpp).length : Nat) : Int) := by
    rw [hsp]
    omega
  have hepT : (filterByPageRange els s pc cpp).endPage =
      (((estimatePages els cpp).length : Nat) : Int) := by
    rcases hpc with h | ⟨c, h, hc1⟩
    · exact hepn h
    · rw [heps c h, hspT]
      omega
  refine ⟨hspT, hepT, ?_⟩
  simp only [hspT, hepT]
  exact filter_lastPage _ hnum hlen

/-- Witness for C7: startPage 99 on a one-page document with pageCount
absent clamps to the last page and selects exactly one page. -/
theorem filterByPageRange_clamps_witness :
    (filterByPageRange [plainPara "Hello"] 99 none 3000).startPage =
      (((estimatePages [plainPara "Hello"] 3000).length : Nat) : Int) ∧
    (filterByPageRange [plainPara "Hello"] 99 none 3000).endPage =
      (((estimatePages [plainPara "Hello"] 3000).length : Nat) : Int) ∧
    ((estimatePages [plainPara "Hello"] 3000).filter (fun p =>
      decide ((filterByPageRange [plainPara "Hello"] 99 none 3000).startPage ≤
        (p.pageNumber : Int)) &&
      decide ((p.pageNumber : Int) ≤
        (filterByPageRange [plainPara "Hello"] 99 none 3000).endPage))).length = 1 :=
  (filterByPageRange_clamps [plainPara "Hello"] 99 none 3000).2.2.2.2.2
    (by decide) (Or.inl rfl)

/-- Counterexample to C7 as stated: on a one-page document, startPage 99
with pageCount 0 clamps startPage to 1 but resolves endPage to 0, so no
page is selected and the result is empty — not the single-page result the
claim asserts for a startPage beyond the last page. -/
theorem filterByPageRange_clamps_counterexample :
    (filterByPageRange [plainPara "Hello"] 99 (some 0) 3000).elements = [] ∧
    (filterByPageRange [plainPara "Hello"] 99 (some 0) 3000).startPage = 1 ∧
    (filterByPageRange [plainPara "Hello"] 99 (some 0) 3000).endPage = 0 ∧
    ((estimatePages [plainPara "Hello"] 3000).filter (fun p =>
      decide ((filterByPageRange [plainPara "Hello"] 99 (some 0) 3000).startPage ≤
        (p.pageNumber : Int)) &&
      decide ((p.pageNumber : Int) ≤
        (filterByPageRange [plainPara "Hello"] 99 (some 0) 3000).endPage))).length = 0 := by
  decide

/-! ## C4: the round trip on a single-page document -/

/-- C4 (amended): when the estimator returns exactly one page covering the
whole block sequence at the default budget, and the thread list is left
unchanged by the Thread Filter/Renumberer on the whole document, the
page-filtered transform at startPage 1 with no pageCount produces markdown
identical to the unfiltered transform. -/
theorem transformWithPageFilter_roundtrip (doc : GoogleDocsDocument)
    (threads : List CommentThread) (cc : Nat)
    (h1 : estimatePages doc.content DEFAULT_CHARS_PER_PAGE =
      [⟨1, 0, doc.content.length, cc⟩])
    (h2 : filterAndRenumberThreads threads doc.content = threads) :
    (transformWithPageFilter doc threads (some ⟨some 1, none, none⟩)).markdown =
      transformToMarkdown doc threads := by
  have hels : (filterByPageRange doc.content 1 none DEFAULT_CHARS_PER_PAGE).elements =
      doc.content := by
    simp only [filterByPageRange, h1]
    simp [sliceElems]
  have hmd : (transformWithPageFilter doc threads (some ⟨some 1, none, none⟩)).markdown =
      transformToMarkdown
        ⟨doc.title,
         (filterByPageRange doc.content 1 none DEFAULT_CHARS_PER_PAGE).elements,
         doc.lists⟩
        (filterAndRenumberThreads threads
          (filterByPageRange doc.content 1 none DEFAULT_CHARS_PER_PAGE).elements) := rfl
  rw [hmd, hels, h2]

/-- A one-paragraph document used for the C4 witness and counterexample. -/
def singleParaDoc : GoogleDocsDocument :=
  ⟨"T", [plainPara "Hello world."], []⟩

/-- Witness for C4: with the thread already carrying anchor id c1, the
filtered and unfiltered markdown agree. -/
theorem transformWithPageFilter_roundtrip_witness :
    (transformWithPageFilter singleParaDoc
        [⟨"1", "c1", "Hello", false, [⟨"Alice", "a@t.com", "Hi", false⟩]⟩]
        (some ⟨some 1, none, none⟩)).markdown =
      transformToMarkdown singleParaDoc
        [⟨"1", "c1", "Hello", false, [⟨"Alice", "a@t.com", "Hi", false⟩]⟩] :=
  transformWithPageFilter_roundtrip singleParaDoc
    [⟨"1", "c1", "Hello", false, [⟨"Alice", "a@t.com", "Hi", false⟩]⟩]
    (getElementCharCount (plainPara "Hello world."))
    (by decide) (by decide)

set_option maxRecDepth 100000 in
/-- Counterexample to C4 as stated: on a single-page document a thread
whose anchor id is c2 is renumbered to c1 by the page-filtered pipeline,
so the filtered markdown differs from the unfiltered transform, which
keeps the supplied anchor id. -/
theorem transformWithPageFilter_roundtrip_counterexample :
    (transformWithPageFilter singleParaDoc
        [⟨"1", "c2", "Hello", false, [⟨"Alice", "a@t.com", "Hi", false⟩]⟩]
        (some ⟨some 1, none, none⟩)).markdown ≠
      transformToMarkdown singleParaDoc
        [⟨"1", "c2", "Hello", false, [⟨"Alice", "a@t.com", "Hi", false⟩]⟩] := by
  decide
